import Mathlib

/-
Shallow embedding of src/src/TrafficLight.cpp.

The program has two components:

* `MessageQueue<T>`: a `std::deque<T> _queue` guarded by a mutex.
  `send` sleeps, locks, clears the deque, pushes the message at the back
  and notifies; `receive` waits until the deque is non-empty, then moves
  the back element out and pops it.  We model the deque contents as a
  `List T` (front of the list = front of the deque) and the blocking
  behaviour of `receive` as an `Option` result (`none` = the call blocks).

* `TrafficLight`: holds `_currentPhase` and a `MessageQueue<TrafficLightPhase>`.
  `cycleThroughPhases` draws one random cycle duration from
  `std::uniform_int_distribution<>(4000, 6000)` before its infinite loop,
  and on every firing of the timer toggles `_currentPhase` and sends the
  (post-toggle) `_currentPhase` into the queue.  We model one firing of
  the timer as one transition, abstracting away wall-clock time, and the
  random engine output as a natural-number seed.
-/

namespace TrafficSim

/-- The two-member enum `TrafficLightPhase` from TrafficLight.h. -/
inductive TrafficLightPhase where
  | red
  | green
deriving DecidableEq, Repr

namespace MessageQueue

/-- Embedding of `MessageQueue<T>::send(T &&msg)`:
`_queue.clear(); _queue.push_back(std::move(msg));`
(the sleep, lock and notification have no effect on the deque contents). -/
def send {T : Type} (_q : List T) (msg : T) : List T :=
  ([] : List T) ++ [msg]

/-- Embedding of `MessageQueue<T>::receive()`:
the condition-variable wait returns only when `_queue` is non-empty, then
`T msg = std::move(_queue.back()); _queue.pop_back(); return msg;`.
`none` models a call that blocks (the deque is empty and the predicate
`!_queue.empty()` fails at every wake-up); `some (msg, q')` returns the
back element and the remaining deque. -/
def receive? {T : Type} (q : List T) : Option (T × List T) :=
  match q with
  | [] => none
  | a :: as => some ((a :: as).getLast (List.cons_ne_nil a as), (a :: as).dropLast)

end MessageQueue

/-- Queue states reachable from the freshly constructed (empty) deque by
any interleaving of completed `send` and `receive` calls. -/
inductive QueueReachable {T : Type} : List T → Prop where
  | init : QueueReachable []
  | send (v : T) {q : List T} : QueueReachable q →
      QueueReachable (MessageQueue.send q v)
  | recv {q q' : List T} {v : T} : QueueReachable q →
      MessageQueue.receive? q = some (v, q') → QueueReachable q'

/-- The `TrafficLight` members relevant to the claims: `_currentPhase`
and the deque contents of `_messageQueue`. -/
structure TrafficLight where
  currentPhase : TrafficLightPhase
  messageQueue : List TrafficLightPhase
deriving DecidableEq, Repr

/-- Embedding of the constructor `TrafficLight::TrafficLight()`:
`_currentPhase = TrafficLightPhase::red;` (the member deque starts empty). -/
def TrafficLight.construct : TrafficLight :=
  { currentPhase := TrafficLightPhase.red, messageQueue := [] }

/-- Embedding of `TrafficLight::getCurrentPhase()`: `return _currentPhase;`. -/
def TrafficLight.getCurrentPhase (t : TrafficLight) : TrafficLightPhase :=
  t.currentPhase

/-- Embedding of `std::uniform_int_distribution<>(a, b)` applied to an
engine output `r`, per the distribution contract: a uniform integer in
the closed interval `[a, b]`. -/
def uniform_int_distribution (a b r : Nat) : Nat :=
  a + r % (b - a + 1)

/-- The phase-toggle branch inside the loop of
`TrafficLight::cycleThroughPhases`:
`if (_currentPhase == red) { _currentPhase = green; }
 else if (_currentPhase == green) { _currentPhase = red; }`. -/
def togglePhase (p : TrafficLightPhase) : TrafficLightPhase :=
  if p = TrafficLightPhase.red then TrafficLightPhase.green
  else if p = TrafficLightPhase.green then TrafficLightPhase.red
  else p

/-- The loop-carried state of `cycleThroughPhases`: the traffic light's
members plus the local `cycleDuration` chosen before the loop.  Wall-clock
bookkeeping (`lastUpdate`, the 1 ms sleeps) is abstracted away: we model
the sequence of firings of `timeSinceLastUpdate >= cycleDuration`. -/
structure CycleState where
  light : TrafficLight
  cycleDuration : Nat
deriving DecidableEq, Repr

/-- Embedding of the prologue of `TrafficLight::cycleThroughPhases` on a
freshly constructed light: `double cycleDuration = distr(eng);` with
`distr = uniform_int_distribution<>(4000, 6000)` and engine output `r`. -/
def cycleThroughPhasesInit (r : Nat) : CycleState :=
  { light := TrafficLight.construct,
    cycleDuration := uniform_int_distribution 4000 6000 r }

/-- Embedding of one firing of the timer branch in the loop of
`cycleThroughPhases`: toggle `_currentPhase`, then
`_messageQueue.send(std::move(_currentPhase))`.  Returns the new state
and the value that was passed to `send`. -/
def cycleThroughPhasesStep (s : CycleState) : CycleState × TrafficLightPhase :=
  ({ light := { currentPhase := togglePhase s.light.currentPhase,
                messageQueue := MessageQueue.send s.light.messageQueue
                  (togglePhase s.light.currentPhase) },
     cycleDuration := s.cycleDuration },
   togglePhase s.light.currentPhase)

/-- `n` firings of the timer branch of `cycleThroughPhases`, starting from
the freshly constructed light with engine output `r`; the second component
is the list of values passed to `send`, in order. -/
def cycleThroughPhasesRun (r : Nat) : Nat → CycleState × List TrafficLightPhase
  | 0 => (cycleThroughPhasesInit r, [])
  | n + 1 =>
      ((cycleThroughPhasesStep (cycleThroughPhasesRun r n).1).1,
       (cycleThroughPhasesRun r n).2 ++
         [(cycleThroughPhasesStep (cycleThroughPhasesRun r n).1).2])

/-- Embedding of `TrafficLight::waitForGreen()` as a function of the
sequence of values returned by successive `receive` calls:
`while(true) { if (_messageQueue.receive() == green) { return; } }`.
Returns the list of values the loop consumed before returning, or `none`
if the supplied sequence never produces `green` (the loop keeps waiting). -/
def waitForGreen : List TrafficLightPhase → Option (List TrafficLightPhase)
  | [] => none
  | p :: ps =>
      if p = TrafficLightPhase.green then some [p]
      else Option.map (fun l => p :: l) (waitForGreen ps)

/-! ## Helper lemmas -/

/-- After `n` firings the stored phase is `red` for even `n` and `green`
for odd `n`. -/
lemma cycleThroughPhasesRun_phase (r n : Nat) :
    ((cycleThroughPhasesRun r n).1).light.currentPhase =
      if n % 2 = 0 then TrafficLightPhase.red else TrafficLightPhase.green := by
  induction n with
  | zero => rfl
  | succ n ih =>
      rcases Nat.mod_two_eq_zero_or_one n with h | h
      · simp [cycleThroughPhasesRun, cycleThroughPhasesStep, togglePhase, ih, h,
          Nat.succ_mod_two_eq_one_iff.mpr h]
      · simp [cycleThroughPhasesRun, cycleThroughPhasesStep, togglePhase, ih, h,
          Nat.succ_mod_two_eq_zero_iff.mpr h]

/-- A completed `receive` removes the back element: the residual state is
`dropLast` of the old one. -/
lemma receive?_eq_some {T : Type} {q q' : List T} {v : T}
    (h : MessageQueue.receive? q = some (v, q')) :
    q ≠ [] ∧ q' = q.dropLast := by
  match q, h with
  | a :: as, h =>
      simp only [MessageQueue.receive?, Option.some.injEq, Prod.mk.injEq] at h
      exact ⟨List.cons_ne_nil a as, h.2.symm⟩

/-- Single-slot invariant: every reachable queue state holds at most one
value. -/
lemma queueReachable_length_le_one {T : Type} {q : List T}
    (hq : QueueReachable q) : q.length ≤ 1 := by
  induction hq with
  | init => simp
  | send v _ _ => simp [MessageQueue.send]
  | recv _ hrec ih =>
      have h := (receive?_eq_some hrec).2
      subst h
      rw [List.length_dropLast]
      omega

/-! ## Claim theorems -/

/-- Claim C1: for every queue state and values A and B, after `send(A)`
then `send(B)` with no intervening receive, the queue holds exactly `[B]`,
a subsequent `receive` returns B (leaving the queue empty, so B is
returned exactly once and a further receive without a send blocks), and
when A and B are distinct the value A is no longer in the queue, hence is
never returned by any later receive. -/
theorem send_send_receive_overwrites {T : Type} (q : List T) (A B : T)
    (hAB : A ≠ B) :
    MessageQueue.send (MessageQueue.send q A) B = [B] ∧
    MessageQueue.receive? (MessageQueue.send (MessageQueue.send q A) B) =
      some (B, ([] : List T)) ∧
    A ∉ MessageQueue.send (MessageQueue.send q A) B ∧
    MessageQueue.receive? ([] : List T) = none := by
  refine ⟨rfl, rfl, ?_, rfl⟩
  simp [MessageQueue.send]
  exact hAB

/-- Witness for C1 at the concrete input q = [], A = red, B = green. -/
theorem send_send_receive_overwrites_witness :
    TrafficLightPhase.red ≠ TrafficLightPhase.green ∧
    (MessageQueue.send (MessageQueue.send ([] : List TrafficLightPhase)
        TrafficLightPhase.red) TrafficLightPhase.green = [TrafficLightPhase.green] ∧
     MessageQueue.receive? (MessageQueue.send (MessageQueue.send
        ([] : List TrafficLightPhase) TrafficLightPhase.red)
        TrafficLightPhase.green) = some (TrafficLightPhase.green, []) ∧
     TrafficLightPhase.red ∉ MessageQueue.send (MessageQueue.send
        ([] : List TrafficLightPhase) TrafficLightPhase.red)
        TrafficLightPhase.green ∧
     MessageQueue.receive? ([] : List TrafficLightPhase) = none) :=
  ⟨by decide, send_send_receive_overwrites [] TrafficLightPhase.red
    TrafficLightPhase.green (by decide)⟩

/-- Claim C2: starting from the initial state `red`, the sequence of
phase values published to the queue over `n` firings of the cycle routine
is exactly green, red, green, red, …: the value published at index `i` is
`green` for even `i` and `red` for odd `i`, so the first published value
is `green` and no two consecutive published values are equal. -/
theorem cycleThroughPhases_alternation (r n : Nat) :
    (cycleThroughPhasesRun r n).2 =
      (List.range n).map (fun i =>
        if i % 2 = 0 then TrafficLightPhase.green else TrafficLightPhase.red) := by
  induction n with
  | zero => rfl
  | succ n ih =>
      have hstep : (cycleThroughPhasesStep (cycleThroughPhasesRun r n).1).2 =
          if n % 2 = 0 then TrafficLightPhase.green else TrafficLightPhase.red := by
        rcases Nat.mod_two_eq_zero_or_one n with h | h <;>
          simp [cycleThroughPhasesStep, togglePhase, cycleThroughPhasesRun_phase, h]
      simp [cycleThroughPhasesRun, List.range_succ, ih, hstep]

/-- Claim C4: for every non-empty reachable queue state, the state holds
exactly one value v; `receive` returns v and leaves the queue empty, and a
second receive without a new send finds the queue empty and blocks. -/
theorem receive_empties_slot (q : List TrafficLightPhase)
    (hq : QueueReachable q) (hne : q ≠ []) :
    ∃ v, q = [v] ∧
      MessageQueue.receive? q = some (v, ([] : List TrafficLightPhase)) ∧
      MessageQueue.receive? ([] : List TrafficLightPhase) = none := by
  have hlen : q.length ≤ 1 := queueReachable_length_le_one hq
  match q, hne, hlen with
  | [v], _, _ => exact ⟨v, rfl, rfl, rfl⟩

/-- Witness for C4 at the concrete reachable state [green]. -/
theorem receive_empties_slot_witness :
    QueueReachable [TrafficLightPhase.green] ∧
    ∃ v, [TrafficLightPhase.green] = [v] ∧
      MessageQueue.receive? [TrafficLightPhase.green] =
        some (v, ([] : List TrafficLightPhase)) ∧
      MessageQueue.receive? ([] : List TrafficLightPhase) = none := by
  have h : QueueReachable [TrafficLightPhase.green] :=
    QueueReachable.send TrafficLightPhase.green QueueReachable.init
  exact ⟨h, receive_empties_slot _ h (by decide)⟩

/-- Claim C3: for every finite sequence of received values whose last
element is the first occurrence of green (written `ws ++ [green]` with
green not in `ws`), `waitForGreen` consumes precisely that sequence and
then returns, no matter what values `rest` would be received afterwards. -/
theorem waitForGreen_consumes_until_green (ws rest : List TrafficLightPhase)
    (hw : TrafficLightPhase.green ∉ ws) :
    waitForGreen (ws ++ [TrafficLightPhase.green] ++ rest) =
      some (ws ++ [TrafficLightPhase.green]) := by
  induction ws with
  | nil => simp [waitForGreen]
  | cons p ps ih =>
      have hp : p ≠ TrafficLightPhase.green := fun h => hw (h ▸ List.mem_cons_self p ps)
      have hps : TrafficLightPhase.green ∉ ps := fun h => hw (List.mem_cons_of_mem p h)
      have hih := ih hps
      simp only [List.append_assoc, List.singleton_append] at hih
      simp [waitForGreen, hp, hih]

/-- Witness for C3 at the concrete input ws = [red], rest = [red]. -/
theorem waitForGreen_consumes_until_green_witness :
    TrafficLightPhase.green ∉ [TrafficLightPhase.red] ∧
    waitForGreen ([TrafficLightPhase.red] ++ [TrafficLightPhase.green] ++
        [TrafficLightPhase.red]) =
      some ([TrafficLightPhase.red] ++ [TrafficLightPhase.green]) :=
  ⟨by decide, waitForGreen_consumes_until_green [TrafficLightPhase.red]
    [TrafficLightPhase.red] (by decide)⟩

/-- Claim C5: the single-slot invariant is preserved by every send and
every receive: every reachable queue state holds at most one value, and
immediately after `send(v)` the queue holds exactly `[v]` (which again
has at most one value). -/
theorem queue_single_slot_invariant (q : List TrafficLightPhase)
    (v : TrafficLightPhase) (hq : QueueReachable q) :
    q.length ≤ 1 ∧ MessageQueue.send q v = [v] ∧
      (MessageQueue.send q v).length ≤ 1 :=
  ⟨queueReachable_length_le_one hq, rfl, by simp [MessageQueue.send]⟩

/-- Witness for C5 at the concrete reachable state [red] with v = green. -/
theorem queue_single_slot_invariant_witness :
    QueueReachable [TrafficLightPhase.red] ∧
    ([TrafficLightPhase.red] : List TrafficLightPhase).length ≤ 1 ∧
    MessageQueue.send [TrafficLightPhase.red] TrafficLightPhase.green =
      [TrafficLightPhase.green] ∧
    (MessageQueue.send [TrafficLightPhase.red] TrafficLightPhase.green).length ≤ 1 := by
  have h : QueueReachable [TrafficLightPhase.red] :=
    QueueReachable.send TrafficLightPhase.red QueueReachable.init
  exact ⟨h, queue_single_slot_invariant _ TrafficLightPhase.green h⟩

/-- Claim C6: the cycle routine draws its random cycle duration exactly
once, before the loop; after any number `n` of firings the stored
`cycleDuration` is still the value drawn before the loop (there is no
per-cycle re-randomization). -/
theorem cycleDuration_chosen_once (r n : Nat) :
    ((cycleThroughPhasesRun r n).1).cycleDuration =
      (cycleThroughPhasesInit r).cycleDuration := by
  induction n with
  | zero => rfl
  | succ n ih => simpa [cycleThroughPhasesRun, cycleThroughPhasesStep] using ih

/-- Claim C7: for every engine output `r`, the cycle duration produced by
`uniform_int_distribution<>(4000, 6000)` lies in the closed interval
[4000, 6000]. -/
theorem cycleDuration_in_range (r : Nat) :
    4000 ≤ (cycleThroughPhasesInit r).cycleDuration ∧
      (cycleThroughPhasesInit r).cycleDuration ≤ 6000 := by
  unfold cycleThroughPhasesInit uniform_int_distribution
  simp only
  omega

/-- Claim C8: a freshly constructed `TrafficLight` has current phase
`red`, and `getCurrentPhase()` called before the cycle routine performs
any transition returns `red`. -/
theorem construct_phase_red :
    TrafficLight.construct.currentPhase = TrafficLightPhase.red ∧
    TrafficLight.construct.getCurrentPhase = TrafficLightPhase.red :=
  ⟨rfl, rfl⟩

/-- Claim C10: at every firing of the cycle routine, `_currentPhase` is
toggled first and the value then passed to `send` is exactly the
post-toggle current phase, so the value delivered to the queue equals the
actor's current phase at the moment of the send. -/
theorem sent_value_is_post_toggle_phase (s : CycleState) :
    (cycleThroughPhasesStep s).2 =
      ((cycleThroughPhasesStep s).1).light.currentPhase ∧
    ((cycleThroughPhasesStep s).1).light.currentPhase =
      togglePhase s.light.currentPhase ∧
    ((cycleThroughPhasesStep s).1).light.messageQueue =
      MessageQueue.send s.light.messageQueue
        ((cycleThroughPhasesStep s).1).light.currentPhase :=
  ⟨rfl, rfl, rfl⟩

end TrafficSim
